import Mathlib

/-!
Shallow embedding of the peakrdl-sv register-abstraction-layer core
(`src/peakrdl_sv/node.py` and `src/peakrdl_sv/regmodel.py`).

Machine integers are modelled as `Nat` (Python integers are unbounded);
Python exceptions are modelled with `Except`; the asynchronous bus
callbacks are modelled as explicit state-passing functions that may fail.
-/

namespace PeakrdlSv

/-- A bit field of a register (`node.py`, class `Field`): msb/lsb bit
indices within the parent register and the optional declared reset value. -/
structure Field where
  inst_name : String
  msb : Nat
  lsb : Nat
  reset : Option Nat
deriving Repr, DecidableEq

/-- Field width in bits (`msb - lsb + 1`, systemrdl `FieldNode.width`). -/
def Field.width (f : Field) : Nat :=
  f.msb - f.lsb + 1

/-- A register (`node.py`, class `Register`): `path` is the `.`-joined
relative path (the key built by `RegModel._map_registers`), `inst_name` the
instance name (`Node.name`), `absolute_address` the base address. -/
structure Register where
  path : String
  inst_name : String
  absolute_address : Nat
  regwidth : Nat
  accesswidth : Nat
  fields : List Field
deriving Repr, DecidableEq

/-- `Register.is_wide`: regwidth > accesswidth (`node.py` line 202). -/
def Register.is_wide (r : Register) : Bool :=
  r.regwidth > r.accesswidth

/-- `Register.addressincr`: accesswidth // 8 (`node.py` line 225). -/
def Register.addressincr (r : Register) : Nat :=
  r.accesswidth / 8

/-- `Register.subregs`: regwidth // accesswidth (`node.py` line 240). -/
def Register.subregs (r : Register) : Nat :=
  r.regwidth / r.accesswidth

/-- `Field.absolute_address` (`node.py` lines 108-114): the parent's base
address, plus `msb // 8` when the parent register is wide. -/
def Field.absolute_address (parent : Register) (f : Field) : Nat :=
  if parent.is_wide then parent.absolute_address + f.msb / 8
  else parent.absolute_address

/-- Bit length with explicit recursion fuel: `bitLenAux fuel n` is the
number of binary digits of `n` whenever `n ≤ fuel` (the recursion depth is
at most `log2 n + 1 ≤ fuel`). -/
def bitLenAux : Nat → Nat → Nat
  | 0, _ => 0
  | fuel + 1, n => if n = 0 then 0 else bitLenAux fuel (n / 2) + 1

/-- Number of binary digits of `n` (0 for 0). -/
def bitLen (n : Nat) : Nat :=
  bitLenAux n n

/-- The digit string produced by Python `f"{v:0{w}b}"` as an MSB-first list
of bits: the binary digits of `v` (one digit `0` for `v = 0`), left-padded
with zeros to width `w`.  The result is never truncated, so its length is
`max w (number of binary digits of v)`. -/
def pyBinDigits (w v : Nat) : List Bool :=
  let len := max w (max 1 (bitLen v))
  (List.range len).map fun i => v.testBit (len - 1 - i)

/-- Python `int(s, 2)` on an MSB-first binary digit list. -/
def bitsToNat (bs : List Bool) : Nat :=
  bs.foldl (fun acc b => 2 * acc + (if b then 1 else 0)) 0

/-- `RegModel.split_value_over_fields` (`regmodel.py` lines 155-180):
format `value` as a `regwidth`-bit binary string, and for each field slice
out `bits[lower:upper)` with `lower = regwidth - msb - 1`,
`upper = regwidth - lsb`, yielding `(field absolute address, slice value)`
pairs in field declaration order.  (The Python slice bounds are
non-negative whenever `msb < regwidth`, so truncated `Nat` subtraction
agrees with the source there.) -/
def split_value_over_fields (target : Register) (value : Nat) : List (Nat × Nat) :=
  let bits := pyBinDigits target.regwidth value
  target.fields.map fun field =>
    let lower := target.regwidth - field.msb - 1
    let upper := target.regwidth - field.lsb
    (Field.absolute_address target field, bitsToNat ((bits.drop lower).take (upper - lower)))

/-- `FieldWrapper` (`regmodel.py` lines 18-23): a field together with its
mirrored (desired) value. -/
structure FieldWrapper where
  field : Field
  value : Nat
deriving Repr, DecidableEq

/-- One register's slot of `RegModel._desired_values`: an insertion-ordered
mapping from field instance names to `FieldWrapper`s (a Python `dict`). -/
abbrev Mirror : Type :=
  List (String × FieldWrapper)

/-- Python `d[k].value = v` on a mirror: replace the value stored under the
first entry with key `k`, keeping the wrapped field and the dict order.
(On a missing key Python raises `KeyError`; callers below only reach this
with keys that are present.) -/
def Mirror.update : Mirror → String → Nat → Mirror
  | [], _, _ => []
  | (k, w) :: rest, key, v =>
    if k = key then (k, ⟨w.field, v⟩) :: rest
    else (k, w) :: Mirror.update rest key v

/-- Lookup of a mirror value, defaulting to 0 when the key is absent (the
callers below guard every use with a presence check, matching the Python
`KeyError` on absent keys). -/
def Mirror.getValue (dv : Mirror) (k : String) : Nat :=
  ((List.lookup k dv).map FieldWrapper.value).getD 0

/-- Sequential mirror updates, one `(key, value)` pair at a time — the
shape of every `for field in target: dv[...].value = ...` loop in
`regmodel.py`. -/
def Mirror.updateEach (dv : Mirror) (ps : List (String × Nat)) : Mirror :=
  ps.foldl (fun dv p => Mirror.update dv p.1 p.2) dv

/-- The loop of `RegModel.set` (`regmodel.py` lines 316-317): write the
`idx`-th masked value to the `idx`-th field's mirror entry. -/
def Mirror.setRegValues (dv : Mirror) (fields : List Field) (masked_values : List Nat) : Mirror :=
  Mirror.updateEach dv ((fields.zip masked_values).map fun fm => (fm.1.inst_name, fm.2))

/-- The loop of `RegModel.reset` (`regmodel.py` lines 425-426): write each
field's declared reset value (`field.reset or 0`) to its mirror entry. -/
def Mirror.resetValues (dv : Mirror) (fields : List Field) : Mirror :=
  Mirror.updateEach dv (fields.map fun f => (f.inst_name, f.reset.getD 0))

/-- The loop of `RegModel.get` (`regmodel.py` lines 353-357): OR together
each field's mirrored value shifted left by its lsb. -/
def getLoop (dv : Mirror) (fields : List Field) : Nat :=
  fields.foldl (fun value f => value ||| (Mirror.getValue dv f.inst_name <<< f.lsb)) 0

/-- Replace the value stored under the first entry with key `k` of an
association list (Python `d[k] = v` on a present key), keeping dict order. -/
def setAssoc {α : Type} : List (String × α) → String → α → List (String × α)
  | [], _, _ => []
  | (k, a) :: rest, key, v =>
    if k = key then (k, v) :: rest
    else (k, a) :: setAssoc rest key v

deriving instance DecidableEq for Except

/-- A raised Python exception, as far as the RAL surfaces it: either an
exception whose message lists a set of valid keys (the `KeyError` of
`get_register_by_name`/`get_field_by_name` and the `Exception` of
`set_field`/`get_field`), a bare `KeyError` carrying no key listing, or a
numpy `ValueError`. -/
inductive PyErr where
  | withKeys : List String → PyErr
  | bare : PyErr
  | valueError : String → PyErr
deriving Repr, DecidableEq

/-- The `RegModel` state (`regmodel.py` lines 50-53): `_reg_map` maps
`.`-joined register paths to registers, `_desired_values` maps the same
paths to per-field mirrors.  Both are insertion-ordered dicts. -/
structure RegModel where
  reg_map : List (String × Register)
  desired_values : List (String × Mirror)
deriving Repr, DecidableEq

/-- `RegModel._map_fields` (`regmodel.py` lines 101-108): seed every
field's mirror entry with `field.reset or 0`. -/
def mapFields (rm : List (String × Register)) : List (String × Mirror) :=
  rm.map fun p =>
    (p.1, (p.2.fields.map fun f => (f.inst_name, (⟨f, f.reset.getD 0⟩ : FieldWrapper)) : Mirror))

/-- Build a `RegModel` from an already elaborated register list, as
`RegModel.__init__` does via `_map_registers` and `_map_fields`. -/
def RegModel.ofRegisters (regs : List Register) : RegModel :=
  let rm := regs.map fun r => (r.path, r)
  ⟨rm, mapFields rm⟩

/-- `RegModel.get_register_by_name` (`regmodel.py` lines 118-133): a
`KeyError` on an unknown path is re-raised with the valid register keys in
the message. -/
def RegModel.get_register_by_name (m : RegModel) (reg_name : String) : Except PyErr Register :=
  match List.lookup reg_name m.reg_map with
  | some r => .ok r
  | none => .error (.withKeys (m.reg_map.map Prod.fst))

/-- `RegModel.get_field_by_name` (`regmodel.py` lines 135-153): on an
unknown field the handler reports the register keys plus the register's
field keys; on an unknown register the handler's own `self._desired_values
[reg_name]` raises a bare `KeyError`. -/
def RegModel.get_field_by_name (m : RegModel) (reg_name field_name : String) : Except PyErr FieldWrapper :=
  match List.lookup reg_name m.desired_values with
  | none => .error .bare
  | some dv =>
    match List.lookup field_name dv with
    | none => .error (.withKeys (m.desired_values.map Prod.fst ++ dv.map Prod.fst))
    | some w => .ok w

/-- `RegModel.set` (`regmodel.py` lines 290-317): split the value over the
register's fields and store each masked value in the mirror.  The guard
models the `KeyError` a mirror entry missing for some field would raise;
for models built by `ofRegisters` the mirror holds exactly the register's
fields and the guard always passes. -/
def RegModel.set (m : RegModel) (reg_name : String) (value : Nat) : Except PyErr RegModel :=
  match m.get_register_by_name reg_name with
  | .error e => .error e
  | .ok target =>
    let masked_values := (split_value_over_fields target value).map Prod.snd
    match List.lookup reg_name m.desired_values with
    | none => .error .bare
    | some dv =>
      if target.fields.all (fun f => (List.lookup f.inst_name dv).isSome) then
        let dvs := setAssoc m.desired_values reg_name (Mirror.setRegValues dv target.fields masked_values)
        .ok { m with desired_values := dvs }
      else .error .bare

/-- `RegModel.set_field` (`regmodel.py` lines 319-336): a `KeyError` from
either dict level is re-raised as an `Exception` whose message lists
`self._desired_values.keys()` (the register-path keys). -/
def RegModel.set_field (m : RegModel) (reg_name field_name : String) (value : Nat) : Except PyErr RegModel :=
  match List.lookup reg_name m.desired_values with
  | none => .error (.withKeys (m.desired_values.map Prod.fst))
  | some dv =>
    match List.lookup field_name dv with
    | none => .error (.withKeys (m.desired_values.map Prod.fst))
    | some _ =>
      let dvs := setAssoc m.desired_values reg_name (Mirror.update dv field_name value)
      .ok { m with desired_values := dvs }

/-- `RegModel.get` (`regmodel.py` lines 338-359): OR together each field's
mirrored value shifted left by its lsb.  The guard models the `KeyError`
raised when a field has no mirror entry. -/
def RegModel.get (m : RegModel) (reg_name : String) : Except PyErr Nat :=
  match m.get_register_by_name reg_name with
  | .error e => .error e
  | .ok target =>
    match List.lookup reg_name m.desired_values with
    | none => .error .bare
    | some dv =>
      if target.fields.all (fun f => (List.lookup f.inst_name dv).isSome) then
        .ok (getLoop dv target.fields)
      else .error .bare

/-- `RegModel.get_field` (`regmodel.py` lines 361-382): a `KeyError` from
either dict level is re-raised with `self._desired_values.keys()` (the
register-path keys) in the message. -/
def RegModel.get_field (m : RegModel) (reg_name field_name : String) : Except PyErr Nat :=
  match List.lookup reg_name m.desired_values with
  | none => .error (.withKeys (m.desired_values.map Prod.fst))
  | some dv =>
    match List.lookup field_name dv with
    | none => .error (.withKeys (m.desired_values.map Prod.fst))
    | some w => .ok w.value

/-- `RegModel.reset` (`regmodel.py` lines 414-426): write each field's
declared reset value (or 0) back to the mirror. -/
def RegModel.reset (m : RegModel) (reg_name : String) : Except PyErr RegModel :=
  match m.get_register_by_name reg_name with
  | .error e => .error e
  | .ok target =>
    match List.lookup reg_name m.desired_values with
    | none => .error .bare
    | some dv =>
      if target.fields.all (fun f => (List.lookup f.inst_name dv).isSome) then
        let dvs := setAssoc m.desired_values reg_name (Mirror.resetValues dv target.fields)
        .ok { m with desired_values := dvs }
      else .error .bare

/-- `RegModel.reset_field` (`regmodel.py` lines 428-441): reset a single
field's mirror entry; a missing key raises a bare `KeyError` (there is no
handler here). -/
def RegModel.reset_field (m : RegModel) (reg_name field_name : String) : Except PyErr RegModel :=
  match List.lookup reg_name m.desired_values with
  | none => .error .bare
  | some dv =>
    match List.lookup field_name dv with
    | none => .error .bare
    | some w =>
      let dvs := setAssoc m.desired_values reg_name (Mirror.update dv field_name (w.field.reset.getD 0))
      .ok { m with desired_values := dvs }

/-- `numpy.random.randint(low, high)` with the default `int64` dtype:
draws uniformly from `[low, high)` and raises `ValueError` when the bounds
do not fit `int64` (`high` may be at most `2^63`).  `draw` selects the
outcome of the random draw. -/
def np_random_randint (low high draw : Nat) : Except String Nat :=
  if high ≤ 2 ^ 63 then
    if low < high then .ok (low + draw % (high - low))
    else .error "low >= high"
  else .error "high is out of bounds for int64"

/-- `RegModel.randomize` (`regmodel.py` lines 384-394): draw a random value
in `[0, 1 << regwidth)` and route it through `set`. -/
def RegModel.randomize (m : RegModel) (reg_name : String) (draw : Nat) : Except PyErr RegModel :=
  match m.get_register_by_name reg_name with
  | .error e => .error e
  | .ok target =>
    match np_random_randint 0 (1 <<< target.regwidth) draw with
    | .error msg => .error (.valueError msg)
    | .ok v => m.set reg_name v

/-- `RegModel.randomize_field` (`regmodel.py` lines 396-412): draw a random
value in `[0, 1 << field.width)` and route it through `set_field`. -/
def RegModel.randomize_field (m : RegModel) (reg_name field_name : String) (draw : Nat) : Except PyErr RegModel :=
  match m.get_field_by_name reg_name field_name with
  | .error e => .error e
  | .ok w =>
    match np_random_randint 0 (1 <<< w.field.width) draw with
    | .error msg => .error (.valueError msg)
    | .ok v => m.set_field reg_name field_name v

/-- The bus transport (`callbacks.py`, class `CallbackSet`): asynchronous
write/read callbacks, modelled as explicit state-passing functions over a
transport state `σ` that may fail with a transport error `ε`. -/
structure CallbackSet (σ ε : Type) where
  async_write_callback : σ → Nat → Nat → Except ε σ
  async_read_callback : σ → Nat → Except ε (σ × Nat)

/-- Sequential, one-at-a-time issuing of bus transactions: each callback is
awaited before the next is issued; the first failure aborts the rest. -/
def foldExcept {σ α ε : Type} (f : σ → α → Except ε σ) : σ → List α → Except ε σ
  | s, [] => .ok s
  | s, a :: rest =>
    match f s a with
    | .error e => .error e
    | .ok s2 => foldExcept f s2 rest

/-- The chunk written by iteration `subreg` of `RegModel.write`
(`regmodel.py` lines 214-229): address `absolute_address + subreg`, data
`(write_data >> (accesswidth * subreg)) & ((1 << accesswidth) - 1)`. -/
def writeTxn (target : Register) (write_data subreg : Nat) : Nat × Nat :=
  (target.absolute_address + subreg,
    (write_data >>> (target.accesswidth * subreg)) &&& ((1 <<< target.accesswidth) - 1))

/-- An error escaping `RegModel.write`/`RegModel.read`: either a Python
lookup error or a transport error raised by a callback. -/
inductive RWErr (ε : Type) where
  | py : PyErr → RWErr ε
  | transport : ε → RWErr ε
deriving Repr, DecidableEq

/-- `RegModel.write` (`regmodel.py` lines 186-233): defaulting of omitted
data to the mirror value, chunked callback writes in ascending `subreg`
order, then — only if explicit data was supplied and every chunk write
returned — the mirror update via `set`.  The returned model is the mirror
state after the call: unchanged whenever an error is raised before the
final `set`. -/
def RegModel.write {σ ε : Type} (cb : CallbackSet σ ε) (s : σ) (m : RegModel)
    (reg_name : String) (data : Option Nat) : RegModel × Except (RWErr ε) σ :=
  match m.get_register_by_name reg_name with
  | .error e => (m, .error (.py e))
  | .ok target =>
    match (match data with | some d => .ok d | none => m.get reg_name : Except PyErr Nat) with
    | .error e => (m, .error (.py e))
    | .ok write_data =>
      match foldExcept
          (fun s subreg =>
            cb.async_write_callback s (writeTxn target write_data subreg).1
              (writeTxn target write_data subreg).2)
          s (List.range target.subregs) with
      | .error e => (m, .error (.transport e))
      | .ok s2 =>
        match data with
        | none => (m, .ok s2)
        | some d =>
          match m.set reg_name d with
          | .ok m2 => (m2, .ok s2)
          | .error e => (m, .error (.py e))

/-- The loop of `RegModel.read.read_register` (`regmodel.py` lines
253-262): read `accesswidth`-sized chunks at `absolute_address + subreg`
and OR each into the result shifted left by `accesswidth * subreg`. -/
def readChunksAux {σ ε : Type} (cb : CallbackSet σ ε) (target : Register) :
    σ → Nat → List Nat → Except ε (σ × Nat)
  | s, result, [] => .ok (s, result)
  | s, result, i :: rest =>
    match cb.async_read_callback s (target.absolute_address + i) with
    | .error e => .error e
    | .ok (s2, value) =>
      readChunksAux cb target s2 (result ||| (value <<< (target.accesswidth * i))) rest

/-- `RegModel.read` (`regmodel.py` lines 235-284): with no field name, read
all `subregs` chunks in ascending order; with a field name, fetch the
field via `get_field_by_name(target.name, ...)` (note: keyed by instance
name), issue a single read at the field's absolute address and refer the
value to zero (`>> (lsb % accesswidth)`, masked to the field width). -/
def RegModel.read {σ ε : Type} (cb : CallbackSet σ ε) (s : σ) (m : RegModel)
    (reg_name : String) (field_name : Option String) : Except (RWErr ε) (σ × Nat) :=
  match m.get_register_by_name reg_name with
  | .error e => .error (.py e)
  | .ok target =>
    match field_name with
    | none =>
      match readChunksAux cb target s 0 (List.range target.subregs) with
      | .error e => .error (.transport e)
      | .ok r => .ok r
    | some fname =>
      match m.get_field_by_name target.inst_name fname with
      | .error e => .error (.py e)
      | .ok w =>
        match cb.async_read_callback s (Field.absolute_address target w.field) with
        | .error e => .error (.transport e)
        | .ok (s2, value) =>
          let shamt := w.field.lsb % target.accesswidth
          let mask := (1 <<< w.field.width) - 1
          .ok (s2, (value >>> shamt) &&& mask)

/-- A loop-back bus: writes update a memory map and are logged; reads are
answered from the same map and logged.  Used to observe the transaction
sequences the RAL issues. -/
structure Bus where
  mem : Nat → Nat
  writes : List (Nat × Nat)
  reads : List Nat

/-- The loop-back transport over `Bus`; it never fails. -/
def loopback : CallbackSet Bus Empty where
  async_write_callback := fun b a v =>
    .ok { mem := fun x => if x = a then v else b.mem x, writes := b.writes ++ [(a, v)], reads := b.reads }
  async_read_callback := fun b a =>
    .ok ({ b with reads := b.reads ++ [a] }, b.mem a)

/-- A fresh loop-back bus holding `mem` with empty transaction logs. -/
def Bus.fresh (mem : Nat → Nat) : Bus :=
  ⟨mem, [], []⟩

/-- Well-formed field geometry for a register: every field lies inside the
register (`0 ≤ lsb ≤ msb < regwidth`, spec §3) and field instance names are
distinct (systemrdl rejects duplicate names). -/
def Register.fieldsWF (r : Register) : Prop :=
  (∀ f ∈ r.fields, f.lsb ≤ f.msb ∧ f.msb < r.regwidth) ∧
    (r.fields.map Field.inst_name).Nodup

instance (r : Register) : Decidable r.fieldsWF :=
  inferInstanceAs (Decidable (And _ _))

/-- The register's fields jointly cover every bit position of the
register. -/
def Register.fieldsCover (r : Register) : Prop :=
  ∀ j < r.regwidth, ∃ f ∈ r.fields, f.lsb ≤ j ∧ j ≤ f.msb

instance (r : Register) : Decidable r.fieldsCover :=
  Nat.decidableBallLT _ _

/-- An exact-width MSB-first binary digit list: bit `n - 1 - i` of `u` at
position `i`.  `pyBinDigits w v` coincides with `natBits w v` whenever
`v < 2 ^ w` and `1 ≤ w`. -/
def natBits (n u : Nat) : List Bool :=
  (List.range n).map fun i => u.testBit (n - 1 - i)

/-- The value `split_value_over_fields` computes for one field: the parsed
string slice. -/
def sliceVal (r : Register) (v : Nat) (f : Field) : Nat :=
  bitsToNat (((pyBinDigits r.regwidth v).drop (r.regwidth - f.msb - 1)).take
    ((r.regwidth - f.lsb) - (r.regwidth - f.msb - 1)))

/-- The loop-back memory after applying a list of `(address, data)` write
transactions in order (later writes win). -/
def busAfterWrites (mem : Nat → Nat) (txns : List (Nat × Nat)) : Nat → Nat :=
  txns.foldl (fun mem t => fun x => if x = t.1 then t.2 else mem x) mem

/-- A register whose two fields tile all 8 bits: used to exercise the
split/join round trip. -/
def fullReg : Register :=
  ⟨"r1", "r1", 4, 8, 8, [⟨"lo", 3, 0, some 5⟩, ⟨"hi", 7, 4, none⟩]⟩

/-- A register with an uncovered bit range (bits 7:4 belong to no field). -/
def gapReg : Register :=
  ⟨"g1", "g1", 0, 8, 8, [⟨"lo", 3, 0, none⟩]⟩

/-- A wide register (regwidth 32, accesswidth 16, 2 subregs) with a single
field occupying the upper sub-register. -/
def wideReg : Register :=
  ⟨"w1", "w1", 0, 32, 16, [⟨"hi", 31, 16, none⟩, ⟨"lo", 15, 0, some 3⟩]⟩

/-- A 64-bit register: `1 << 64` exceeds numpy's int64 `high` bound. -/
def reg64 : Register :=
  ⟨"r64", "r64", 0, 64, 32, [⟨"f", 63, 0, none⟩]⟩

/-- A transport whose write callback fails at one specific address. -/
def failAt (bad : Nat) : CallbackSet Unit String where
  async_write_callback := fun _ a _ => if a = bad then .error "bus fault" else .ok ()
  async_read_callback := fun _ _ => .ok ((), 0)

/-! ### Binary digit strings -/

theorem natBits_length (n u : Nat) : (natBits n u).length = n := by
  simp [natBits]

theorem natBits_succ (n u : Nat) : natBits (n + 1) u = u.testBit n :: natBits n u := by
  simp only [natBits, List.range_succ_eq_map, List.map_cons, List.map_map]
  refine congrArg₂ _ (by simp) (List.map_congr_left ?_)
  intro i _
  simp only [Function.comp_apply]
  congr 1
  omega

theorem bitsToNat_shift (bs : List Bool) (a : Nat) :
    bs.foldl (fun acc b => 2 * acc + (if b then 1 else 0)) a =
      a * 2 ^ bs.length + bitsToNat bs := by
  induction bs generalizing a with
  | nil => simp [bitsToNat]
  | cons b bs ih =>
    simp only [List.foldl_cons, bitsToNat, List.length_cons]
    rw [ih, ih (2 * 0 + if b then 1 else 0)]
    ring

theorem bitsToNat_cons (b : Bool) (bs : List Bool) :
    bitsToNat (b :: bs) = (if b then 1 else 0) * 2 ^ bs.length + bitsToNat bs := by
  simp only [bitsToNat, List.foldl_cons]
  rw [bitsToNat_shift]
  simp [bitsToNat]

theorem bitsToNat_natBits (n u : Nat) : bitsToNat (natBits n u) = u % 2 ^ n := by
  induction n with
  | zero => simp [natBits, bitsToNat, Nat.mod_one]
  | succ n ih =>
    rw [natBits_succ, bitsToNat_cons, natBits_length, ih]
    have hsplit : u % 2 ^ (n + 1) = u % 2 ^ n + 2 ^ n * (u / 2 ^ n % 2) := by
      rw [pow_succ]
      exact Nat.mod_mul
    rcases Nat.mod_two_eq_zero_or_one (u / 2 ^ n) with h | h <;>
      (simp [Nat.testBit_to_div_mod, h, hsplit]; try omega)

theorem bitLenAux_le (fuel : Nat) : ∀ n w : Nat, n ≤ fuel → n < 2 ^ w → bitLenAux fuel n ≤ w := by
  induction fuel with
  | zero => intro n w _ _; simp [bitLenAux]
  | succ fuel ih =>
    intro n w hf hw
    by_cases h0 : n = 0
    · simp [bitLenAux, h0]
    · simp only [bitLenAux, if_neg h0]
      have hw1 : 1 ≤ w := by
        rcases Nat.eq_zero_or_pos w with hw0 | hpos
        · subst hw0
          simp at hw
          omega
        · exact hpos
      have h2 : 2 ^ w = 2 * 2 ^ (w - 1) := by
        rw [← pow_succ']
        congr 1
        omega
      rw [h2] at hw
      have := ih (n / 2) (w - 1) (by omega) (by omega)
      omega

theorem pyBinDigits_eq_natBits (w v : Nat) (hw : 1 ≤ w) (hv : v < 2 ^ w) :
    pyBinDigits w v = natBits w v := by
  have hb : bitLen v ≤ w := bitLenAux_le v v w (le_refl v) hv
  have hlen : max w (max 1 (bitLen v)) = w := by omega
  simp only [pyBinDigits, natBits, hlen]

theorem natBits_slice (n u d t : Nat) (h : d + t ≤ n) :
    ((natBits n u).drop d).take t = natBits t (u >>> (n - d - t)) := by
  apply List.ext_getElem
  · simp [natBits]
    omega
  · intro i h1 h2
    simp only [natBits, List.getElem_take, List.getElem_drop, List.getElem_map,
      List.getElem_range, Nat.testBit_shiftRight]
    have hi : i < t := by
      simp [natBits] at h2
      omega
    congr 1
    omega

theorem sliceVal_eq (r : Register) (v : Nat) (f : Field) (hw : 1 ≤ r.regwidth)
    (hmsb : f.msb < r.regwidth) (hlsb : f.lsb ≤ f.msb) (hv : v < 2 ^ r.regwidth) :
    sliceVal r v f = (v >>> f.lsb) % 2 ^ f.width := by
  unfold sliceVal
  rw [pyBinDigits_eq_natBits _ _ hw hv]
  have ht : (r.regwidth - f.lsb) - (r.regwidth - f.msb - 1) = f.msb - f.lsb + 1 := by omega
  rw [ht, natBits_slice _ _ _ _ (by omega)]
  have hs : r.regwidth - (r.regwidth - f.msb - 1) - (f.msb - f.lsb + 1) = f.lsb := by omega
  rw [hs, bitsToNat_natBits, Field.width]

theorem split_eq_map_sliceVal (r : Register) (v : Nat) :
    split_value_over_fields r v =
      r.fields.map fun f => (Field.absolute_address r f, sliceVal r v f) := by
  simp [split_value_over_fields, sliceVal]

/-! ### Bitwise helper lemmas -/

theorem and_shiftLeft_one_sub_one (x n : Nat) : x &&& ((1 <<< n) - 1) = x % 2 ^ n := by
  have h1 : (1 : Nat) <<< n = 2 ^ n := by
    rw [Nat.shiftLeft_eq, one_mul]
  rw [h1]
  apply Nat.eq_of_testBit_eq
  intro i
  simp [Nat.testBit_and, Nat.testBit_two_pow_sub_one, Nat.testBit_mod_two_pow, Bool.and_comm]

theorem testBit_foldl_lor {α : Type} (g : α → Nat) (l : List α) (a : Nat) (j : Nat) :
    (l.foldl (fun acc x => acc ||| g x) a).testBit j =
      (a.testBit j || l.any fun x => (g x).testBit j) := by
  induction l generalizing a with
  | nil => simp
  | cons x xs ih =>
    simp only [List.foldl_cons, List.any_cons, ih, Nat.testBit_or, Bool.or_assoc]

theorem testBit_foldl_lor_zero {α : Type} (g : α → Nat) (l : List α) (j : Nat) :
    (l.foldl (fun acc x => acc ||| g x) 0).testBit j = (l.any fun x => (g x).testBit j) := by
  rw [testBit_foldl_lor]
  simp

theorem foldl_or_field_slices (w v : Nat) (fields : List Field)
    (hwf : ∀ f ∈ fields, f.lsb ≤ f.msb ∧ f.msb < w)
    (hcover : ∀ j < w, ∃ f ∈ fields, f.lsb ≤ j ∧ j ≤ f.msb)
    (hv : v < 2 ^ w) :
    fields.foldl (fun acc f => acc ||| (((v >>> f.lsb) % 2 ^ f.width) <<< f.lsb)) 0 = v := by
  apply Nat.eq_of_testBit_eq
  intro j
  rw [testBit_foldl_lor_zero]
  have hterm : ∀ f ∈ fields,
      ((((v >>> f.lsb) % 2 ^ f.width) <<< f.lsb).testBit j = true) ↔
        (f.lsb ≤ j ∧ j ≤ f.msb ∧ v.testBit j = true) := by
    intro f hf
    obtain ⟨hfl, hfm⟩ := hwf f hf
    simp only [Nat.testBit_shiftLeft, Nat.testBit_mod_two_pow, Nat.testBit_shiftRight,
      Bool.and_eq_true, decide_eq_true_eq, ge_iff_le, Field.width]
    constructor
    · rintro ⟨h1, h2, h3⟩
      have : f.lsb + (j - f.lsb) = j := by omega
      rw [this] at h3
      exact ⟨h1, by omega, h3⟩
    · rintro ⟨h1, h2, h3⟩
      have : f.lsb + (j - f.lsb) = j := by omega
      rw [this]
      exact ⟨h1, by omega, h3⟩
  by_cases hj : j < w
  · cases hvb : v.testBit j with
    | true =>
      obtain ⟨f0, hf0, hl0, hr0⟩ := hcover j hj
      have : (fields.any fun f => (((v >>> f.lsb) % 2 ^ f.width) <<< f.lsb).testBit j) = true := by
        rw [List.any_eq_true]
        exact ⟨f0, hf0, (hterm f0 hf0).mpr ⟨hl0, hr0, hvb⟩⟩
      rw [this]
    | false =>
      rw [List.any_eq_false.mpr]
      intro f hf
      intro hcontra
      exact absurd ((hterm f hf).mp hcontra).2.2 (by simp [hvb])
  · have hvb : v.testBit j = false :=
      Nat.testBit_lt_two_pow (lt_of_lt_of_le hv (Nat.pow_le_pow_right (by omega) (by omega)))
    rw [hvb, List.any_eq_false.mpr]
    intro f hf
    intro hcontra
    obtain ⟨h1, h2, _⟩ := (hterm f hf).mp hcontra
    obtain ⟨_, hfm⟩ := hwf f hf
    omega

theorem foldl_or_fields_lt (w : Nat) (fields : List Field) (ν : Field → Nat)
    (hwf : ∀ f ∈ fields, f.lsb ≤ f.msb ∧ f.msb < w)
    (hν : ∀ f ∈ fields, ν f < 2 ^ f.width) :
    fields.foldl (fun acc f => acc ||| (ν f <<< f.lsb)) 0 < 2 ^ w := by
  apply Nat.lt_pow_two_of_testBit
  intro i hi
  rw [testBit_foldl_lor_zero, List.any_eq_false.mpr]
  intro f hf
  obtain ⟨hfl, hfm⟩ := hwf f hf
  simp only [Nat.testBit_shiftLeft, Bool.and_eq_true, decide_eq_true_eq, ge_iff_le, not_and]
  intro hle
  have hlt : ν f < 2 ^ (i - f.lsb) := by
    refine lt_of_lt_of_le (hν f hf) (Nat.pow_le_pow_right (by omega) ?_)
    simp only [Field.width]
    omega
  simp [Nat.testBit_lt_two_pow hlt]

theorem foldl_or_chunks (aw k v : Nat) (haw : 1 ≤ aw) (hv : v < 2 ^ (aw * k)) :
    (List.range k).foldl
      (fun res i => res ||| (((v >>> (aw * i)) &&& ((1 <<< aw) - 1)) <<< (aw * i))) 0 = v := by
  apply Nat.eq_of_testBit_eq
  intro j
  rw [testBit_foldl_lor_zero]
  have hterm : ∀ i : Nat,
      ((((v >>> (aw * i)) &&& ((1 <<< aw) - 1)) <<< (aw * i)).testBit j = true) ↔
        (aw * i ≤ j ∧ j < aw * i + aw ∧ v.testBit j = true) := by
    intro i
    rw [and_shiftLeft_one_sub_one]
    simp only [Nat.testBit_shiftLeft, Nat.testBit_mod_two_pow, Nat.testBit_shiftRight,
      Bool.and_eq_true, decide_eq_true_eq, ge_iff_le]
    constructor
    · rintro ⟨h1, h2, h3⟩
      have : aw * i + (j - aw * i) = j := by omega
      rw [this] at h3
      exact ⟨h1, by omega, h3⟩
    · rintro ⟨h1, h2, h3⟩
      have : aw * i + (j - aw * i) = j := by omega
      rw [this]
      exact ⟨h1, by omega, h3⟩
  cases hvb : v.testBit j with
  | true =>
    have hjlt : j < aw * k := by
      by_contra hge
      have : v < 2 ^ j :=
        lt_of_lt_of_le hv (Nat.pow_le_pow_right (by omega) (by omega))
      simp [Nat.testBit_lt_two_pow this] at hvb
    have hik : j / aw < k := by
      rw [Nat.div_lt_iff_lt_mul (by omega), Nat.mul_comm k aw]
      exact hjlt
    have h1 : aw * (j / aw) ≤ j := by
      rw [Nat.mul_comm]
      exact Nat.div_mul_le_self j aw
    have h2 : j < aw * (j / aw) + aw := by
      conv_lhs => rw [← Nat.div_add_mod j aw]
      exact Nat.add_lt_add_left (Nat.mod_lt j (by omega)) _
    rw [List.any_eq_true]
    exact ⟨j / aw, List.mem_range.mpr hik, (hterm (j / aw)).mpr ⟨h1, h2, hvb⟩⟩
  | false =>
    rw [List.any_eq_false.mpr]
    intro i _
    intro hcontra
    exact absurd ((hterm i).mp hcontra).2.2 (by simp [hvb])

/-! ### Association-list and mirror lemmas -/

theorem keys_setAssoc {α : Type} (l : List (String × α)) (k : String) (v : α) :
    (setAssoc l k v).map Prod.fst = l.map Prod.fst := by
  induction l with
  | nil => rfl
  | cons p rest ih =>
    obtain ⟨k0, a0⟩ := p
    by_cases h : k0 = k <;> simp [setAssoc, h, ih]

theorem lookup_setAssoc_self {α : Type} (l : List (String × α)) (k : String) (v : α)
    (h : (List.lookup k l).isSome) : List.lookup k (setAssoc l k v) = some v := by
  induction l with
  | nil => simp [List.lookup] at h
  | cons p rest ih =>
    obtain ⟨k0, a0⟩ := p
    by_cases hk : k0 = k
    · subst hk
      simp [setAssoc, List.lookup]
    · have hne : (k == k0) = false := by simp [BEq.comm]; exact fun hc => hk hc.symm
      simp only [setAssoc, if_neg hk, List.lookup, hne] at h ⊢
      exact ih h

theorem lookup_setAssoc_ne {α : Type} (l : List (String × α)) (k k2 : String) (v : α)
    (h : k2 ≠ k) : List.lookup k2 (setAssoc l k v) = List.lookup k2 l := by
  induction l with
  | nil => rfl
  | cons p rest ih =>
    obtain ⟨k0, a0⟩ := p
    by_cases hk : k0 = k
    · subst hk
      have hne : (k2 == k0) = false := by simp; exact h
      simp [setAssoc, List.lookup, hne]
    · by_cases hk2 : k2 = k0 <;> simp [setAssoc, if_neg hk, List.lookup, hk2, ih]

theorem keys_update (dv : Mirror) (k : String) (v : Nat) :
    (Mirror.update dv k v).map Prod.fst = dv.map Prod.fst := by
  induction dv with
  | nil => rfl
  | cons p rest ih =>
    obtain ⟨k0, w0⟩ := p
    by_cases h : k0 = k <;> simp [Mirror.update, h, ih]

theorem lookup_update_self (dv : Mirror) (k : String) (v : Nat) (w : FieldWrapper)
    (h : List.lookup k dv = some w) :
    List.lookup k (Mirror.update dv k v) = some ⟨w.field, v⟩ := by
  induction dv with
  | nil => simp [List.lookup] at h
  | cons p rest ih =>
    obtain ⟨k0, w0⟩ := p
    by_cases hk : k0 = k
    · have hbeq : (k == k0) = true := by simp [hk]
      simp only [List.lookup, hbeq] at h
      simp only [Mirror.update, if_pos hk, List.lookup, hbeq]
      simp only [Option.some_inj] at h
      rw [h]
    · have hne : (k == k0) = false := by simp; exact fun hc => hk hc.symm
      simp only [List.lookup, hne] at h
      simp only [Mirror.update, if_neg hk, List.lookup, hne]
      exact ih h

theorem lookup_update_ne (dv : Mirror) (k k2 : String) (v : Nat) (h : k2 ≠ k) :
    List.lookup k2 (Mirror.update dv k v) = List.lookup k2 dv := by
  induction dv with
  | nil => rfl
  | cons p rest ih =>
    obtain ⟨k0, w0⟩ := p
    by_cases hk : k0 = k
    · subst hk
      have hne : (k2 == k0) = false := by simp; exact h
      simp [Mirror.update, List.lookup, hne]
    · by_cases hk2 : k2 = k0 <;> simp [Mirror.update, if_neg hk, List.lookup, hk2, ih]

theorem lookup_isSome_of_mem_keys {α : Type} (l : List (String × α)) (k : String)
    (h : k ∈ l.map Prod.fst) : (List.lookup k l).isSome := by
  induction l with
  | nil => simp at h
  | cons p rest ih =>
    obtain ⟨k0, a0⟩ := p
    by_cases hk : k = k0
    · simp [List.lookup, hk]
    · have hne : (k == k0) = false := by simp; exact hk
      simp only [List.map_cons, List.mem_cons] at h
      simp only [List.lookup, hne]
      exact ih (h.resolve_left hk)

theorem keys_updateEach (dv : Mirror) (ps : List (String × Nat)) :
    (Mirror.updateEach dv ps).map Prod.fst = dv.map Prod.fst := by
  induction ps generalizing dv with
  | nil => rfl
  | cons p rest ih =>
    simp only [Mirror.updateEach, List.foldl_cons]
    rw [show List.foldl (fun dv p => Mirror.update dv p.1 p.2) (Mirror.update dv p.1 p.2) rest =
      Mirror.updateEach (Mirror.update dv p.1 p.2) rest from rfl, ih, keys_update]

theorem lookup_updateEach_notMem (dv : Mirror) (ps : List (String × Nat)) (k : String)
    (h : k ∉ ps.map Prod.fst) :
    List.lookup k (Mirror.updateEach dv ps) = List.lookup k dv := by
  induction ps generalizing dv with
  | nil => rfl
  | cons p rest ih =>
    simp only [List.map_cons, List.mem_cons, not_or] at h
    simp only [Mirror.updateEach, List.foldl_cons]
    rw [show List.foldl (fun dv p => Mirror.update dv p.1 p.2) (Mirror.update dv p.1 p.2) rest =
      Mirror.updateEach (Mirror.update dv p.1 p.2) rest from rfl, ih _ h.2,
      lookup_update_ne _ _ _ _ h.1]

theorem lookup_updateEach_mem (dv : Mirror) (ps : List (String × Nat)) (k : String) (x : Nat)
    (hnodup : (ps.map Prod.fst).Nodup) (hmem : (k, x) ∈ ps) (w : FieldWrapper)
    (hw : List.lookup k dv = some w) :
    List.lookup k (Mirror.updateEach dv ps) = some ⟨w.field, x⟩ := by
  induction ps generalizing dv with
  | nil => simp at hmem
  | cons p rest ih =>
    simp only [List.map_cons, List.nodup_cons] at hnodup
    simp only [Mirror.updateEach, List.foldl_cons]
    rw [show List.foldl (fun dv p => Mirror.update dv p.1 p.2) (Mirror.update dv p.1 p.2) rest =
      Mirror.updateEach (Mirror.update dv p.1 p.2) rest from rfl]
    rcases List.mem_cons.mp hmem with heq | hrest
    · have hk2 : p.1 = k := by rw [← heq]
      have hx2 : p.2 = x := by rw [← heq]
      subst hk2 hx2
      have hnot : p.1 ∉ rest.map Prod.fst := hnodup.1
      rw [lookup_updateEach_notMem _ _ _ hnot, lookup_update_self _ _ _ _ hw]
    · have hkne : k ≠ p.1 := by
        intro hc
        exact hnodup.1 (hc ▸ (List.mem_map_of_mem Prod.fst hrest : (k, x).fst ∈ rest.map Prod.fst))
      exact ih _ hnodup.2 hrest (by rw [lookup_update_ne _ _ _ _ hkne]; exact hw)

theorem getValue_lookup (dv : Mirror) (k : String) (w : FieldWrapper)
    (h : List.lookup k dv = some w) : Mirror.getValue dv k = w.value := by
  simp [Mirror.getValue, h]

theorem keys_setRegValues (dv : Mirror) (fields : List Field) (masked : List Nat) :
    (Mirror.setRegValues dv fields masked).map Prod.fst = dv.map Prod.fst :=
  keys_updateEach _ _

theorem setRegValues_map (dv : Mirror) (fields : List Field) (ν : Field → Nat) :
    Mirror.setRegValues dv fields (fields.map ν) =
      Mirror.updateEach dv (fields.map fun f => (f.inst_name, ν f)) := by
  unfold Mirror.setRegValues
  have hz : fields.zip (fields.map ν) = fields.map fun f => (f, ν f) := by
    have h := List.zip_map' id ν fields
    simpa using h
  rw [hz, List.map_map]
  rfl

theorem getValue_setRegValues (dv : Mirror) (fields : List Field) (ν : Field → Nat) (g : Field)
    (hnodup : (fields.map Field.inst_name).Nodup) (hg : g ∈ fields)
    (hkeys : dv.map Prod.fst = fields.map Field.inst_name) :
    Mirror.getValue (Mirror.setRegValues dv fields (fields.map ν)) g.inst_name = ν g := by
  rw [setRegValues_map]
  have hsome := lookup_isSome_of_mem_keys dv g.inst_name
    (by rw [hkeys]; exact List.mem_map_of_mem _ hg)
  obtain ⟨w, hw⟩ := Option.isSome_iff_exists.mp hsome
  have hmem : (g.inst_name, ν g) ∈ fields.map fun f => (f.inst_name, ν f) :=
    List.mem_map_of_mem _ hg
  have hnodup2 : ((fields.map fun f => (f.inst_name, ν f)).map Prod.fst).Nodup := by
    rw [List.map_map]
    exact hnodup
  rw [getValue_lookup _ _ _ (lookup_updateEach_mem dv _ _ _ hnodup2 hmem w hw)]

theorem getValue_resetValues (dv : Mirror) (fields : List Field) (g : Field)
    (hnodup : (fields.map Field.inst_name).Nodup) (hg : g ∈ fields)
    (hkeys : dv.map Prod.fst = fields.map Field.inst_name) :
    Mirror.getValue (Mirror.resetValues dv fields) g.inst_name = g.reset.getD 0 := by
  have hsome := lookup_isSome_of_mem_keys dv g.inst_name
    (by rw [hkeys]; exact List.mem_map_of_mem _ hg)
  obtain ⟨w, hw⟩ := Option.isSome_iff_exists.mp hsome
  have hmem : (g.inst_name, g.reset.getD 0) ∈ fields.map fun f => (f.inst_name, f.reset.getD 0) :=
    List.mem_map_of_mem _ hg
  have hnodup2 : ((fields.map fun f => (f.inst_name, f.reset.getD 0)).map Prod.fst).Nodup := by
    rw [List.map_map]
    exact hnodup
  rw [Mirror.resetValues,
    getValue_lookup _ _ _ (lookup_updateEach_mem dv _ _ _ hnodup2 hmem w hw)]

theorem getLoop_eq_foldl (dv : Mirror) (fields : List Field) (ν : Field → Nat)
    (h : ∀ f ∈ fields, Mirror.getValue dv f.inst_name = ν f) :
    getLoop dv fields = fields.foldl (fun acc f => acc ||| (ν f <<< f.lsb)) 0 := by
  unfold getLoop
  apply List.foldl_ext
  intro a f hf
  rw [h f hf]

theorem fields_all_isSome (dv : Mirror) (fields : List Field)
    (hkeys : dv.map Prod.fst = fields.map Field.inst_name) :
    fields.all (fun f => (List.lookup f.inst_name dv).isSome) = true := by
  rw [List.all_eq_true]
  intro f hf
  apply lookup_isSome_of_mem_keys
  rw [hkeys]
  exact List.mem_map_of_mem _ hf

theorem split_map_snd (r : Register) (v : Nat) :
    (split_value_over_fields r v).map Prod.snd = r.fields.map (sliceVal r v) := by
  rw [split_eq_map_sliceVal, List.map_map]
  rfl

/-! ### Model-level lemmas -/

theorem set_eq_of_keys (m : RegModel) (p : String) (r : Register) (dv : Mirror) (v : Nat)
    (hr : m.get_register_by_name p = .ok r)
    (hdv : List.lookup p m.desired_values = some dv)
    (hkeys : dv.map Prod.fst = r.fields.map Field.inst_name) :
    m.set p v = .ok ⟨m.reg_map,
      setAssoc m.desired_values p
        (Mirror.setRegValues dv r.fields ((split_value_over_fields r v).map Prod.snd))⟩ := by
  simp only [RegModel.set, hr, hdv, fields_all_isSome dv r.fields hkeys, if_true]

theorem get_eq_of_keys (m : RegModel) (p : String) (r : Register) (dv : Mirror)
    (hr : m.get_register_by_name p = .ok r)
    (hdv : List.lookup p m.desired_values = some dv)
    (hkeys : dv.map Prod.fst = r.fields.map Field.inst_name) :
    m.get p = .ok (getLoop dv r.fields) := by
  simp only [RegModel.get, hr, hdv, fields_all_isSome dv r.fields hkeys, if_true]

theorem set_then_get (m : RegModel) (p : String) (r : Register) (dv : Mirror) (v : Nat)
    (hr : m.get_register_by_name p = .ok r)
    (hdv : List.lookup p m.desired_values = some dv)
    (hkeys : dv.map Prod.fst = r.fields.map Field.inst_name)
    (hnodup : (r.fields.map Field.inst_name).Nodup) :
    (m.set p v).bind (fun m2 => m2.get p) =
      .ok (r.fields.foldl (fun acc f => acc ||| (sliceVal r v f <<< f.lsb)) 0) := by
  rw [set_eq_of_keys m p r dv v hr hdv hkeys]
  rw [split_map_snd]
  have hp : (List.lookup p m.desired_values).isSome := by rw [hdv]; rfl
  have hlook :
      List.lookup p (setAssoc m.desired_values p
        (Mirror.setRegValues dv r.fields (r.fields.map (sliceVal r v)))) =
      some (Mirror.setRegValues dv r.fields (r.fields.map (sliceVal r v))) :=
    lookup_setAssoc_self _ _ _ hp
  have hkeys2 : (Mirror.setRegValues dv r.fields (r.fields.map (sliceVal r v))).map Prod.fst =
      r.fields.map Field.inst_name := by
    rw [keys_setRegValues, hkeys]
  rw [show (Except.ok (⟨m.reg_map,
      setAssoc m.desired_values p
        (Mirror.setRegValues dv r.fields (r.fields.map (sliceVal r v)))⟩ : RegModel) :
      Except PyErr RegModel).bind (fun m2 => m2.get p) =
    (⟨m.reg_map,
      setAssoc m.desired_values p
        (Mirror.setRegValues dv r.fields (r.fields.map (sliceVal r v)))⟩ : RegModel).get p
    from rfl]
  have hr2 : (⟨m.reg_map,
      setAssoc m.desired_values p
        (Mirror.setRegValues dv r.fields (r.fields.map (sliceVal r v)))⟩ :
      RegModel).get_register_by_name p = .ok r := hr
  rw [get_eq_of_keys _ p r _ hr2 hlook hkeys2]
  congr 1
  apply getLoop_eq_foldl
  intro f hf
  exact getValue_setRegValues dv r.fields (sliceVal r v) f hnodup hf hkeys

theorem reset_then_get (m : RegModel) (p : String) (r : Register) (dv : Mirror)
    (hr : m.get_register_by_name p = .ok r)
    (hdv : List.lookup p m.desired_values = some dv)
    (hkeys : dv.map Prod.fst = r.fields.map Field.inst_name)
    (hnodup : (r.fields.map Field.inst_name).Nodup) :
    (m.reset p).bind (fun m2 => m2.get p) =
      .ok (r.fields.foldl (fun acc f => acc ||| (f.reset.getD 0 <<< f.lsb)) 0) := by
  have hreset : m.reset p = .ok ⟨m.reg_map,
      setAssoc m.desired_values p (Mirror.resetValues dv r.fields)⟩ := by
    simp only [RegModel.reset, hr, hdv, fields_all_isSome dv r.fields hkeys, if_true]
  rw [hreset]
  have hp : (List.lookup p m.desired_values).isSome := by rw [hdv]; rfl
  have hlook : List.lookup p (setAssoc m.desired_values p (Mirror.resetValues dv r.fields)) =
      some (Mirror.resetValues dv r.fields) := lookup_setAssoc_self _ _ _ hp
  have hkeys2 : (Mirror.resetValues dv r.fields).map Prod.fst = r.fields.map Field.inst_name := by
    rw [Mirror.resetValues, keys_updateEach, hkeys]
  rw [show (Except.ok (⟨m.reg_map,
      setAssoc m.desired_values p (Mirror.resetValues dv r.fields)⟩ : RegModel) :
      Except PyErr RegModel).bind (fun m2 => m2.get p) =
    (⟨m.reg_map,
      setAssoc m.desired_values p (Mirror.resetValues dv r.fields)⟩ : RegModel).get p from rfl]
  have hr2 : (⟨m.reg_map,
      setAssoc m.desired_values p (Mirror.resetValues dv r.fields)⟩ :
      RegModel).get_register_by_name p = .ok r := hr
  rw [get_eq_of_keys _ p r _ hr2 hlook hkeys2]
  congr 1
  apply getLoop_eq_foldl
  intro f hf
  exact getValue_resetValues dv r.fields f hnodup hf hkeys

/-! ### Transport lemmas -/

theorem foldExcept_loopback_write (target : Register) (wd : Nat) (b : Bus) (l : List Nat) :
    foldExcept
      (fun s subreg => loopback.async_write_callback s (writeTxn target wd subreg).1
        (writeTxn target wd subreg).2) b l =
      .ok ⟨busAfterWrites b.mem (l.map (writeTxn target wd)),
        b.writes ++ l.map (writeTxn target wd), b.reads⟩ := by
  induction l generalizing b with
  | nil => simp [foldExcept, busAfterWrites]
  | cons i rest ih =>
    rw [show foldExcept
        (fun s subreg => loopback.async_write_callback s (writeTxn target wd subreg).1
          (writeTxn target wd subreg).2) b (i :: rest) =
      foldExcept
        (fun s subreg => loopback.async_write_callback s (writeTxn target wd subreg).1
          (writeTxn target wd subreg).2)
        (⟨fun x => if x = (writeTxn target wd i).1 then (writeTxn target wd i).2 else b.mem x,
          b.writes ++ [writeTxn target wd i], b.reads⟩ : Bus) rest from rfl, ih]
    simp [busAfterWrites]

theorem busAfterWrites_append_single (mem : Nat → Nat) (txns : List (Nat × Nat))
    (t : Nat × Nat) (a : Nat) :
    busAfterWrites mem (txns ++ [t]) a = if a = t.1 then t.2 else busAfterWrites mem txns a := by
  simp [busAfterWrites, List.foldl_append]

theorem busAfterWrites_range (target : Register) (wd : Nat) (mem : Nat → Nat) (k j : Nat)
    (hj : j < k) :
    busAfterWrites mem ((List.range k).map (writeTxn target wd)) (target.absolute_address + j) =
      (writeTxn target wd j).2 := by
  induction k with
  | zero => omega
  | succ k ih =>
    rw [List.range_succ, List.map_append, List.map_singleton, busAfterWrites_append_single]
    by_cases hjk : j = k
    · subst hjk
      simp [writeTxn]
    · rw [if_neg (by simp only [writeTxn]; omega)]
      exact ih (by omega)

theorem readChunksAux_loopback (target : Register) (b : Bus) (res : Nat) (l : List Nat) :
    readChunksAux loopback target b res l =
      .ok ({ b with reads := b.reads ++ l.map fun i => target.absolute_address + i },
        l.foldl
          (fun res i => res ||| (b.mem (target.absolute_address + i) <<< (target.accesswidth * i)))
          res) := by
  induction l generalizing b res with
  | nil => simp [readChunksAux]
  | cons i rest ih =>
    rw [show readChunksAux loopback target b res (i :: rest) =
      readChunksAux loopback target (⟨b.mem, b.writes, b.reads ++ [target.absolute_address + i]⟩ : Bus)
        (res ||| (b.mem (target.absolute_address + i) <<< (target.accesswidth * i))) rest from rfl,
      ih]
    simp

theorem read_register_loopback (m : RegModel) (p : String) (r : Register) (b : Bus)
    (hr : m.get_register_by_name p = .ok r) :
    m.read loopback b p none =
      .ok (⟨b.mem, b.writes,
          b.reads ++ (List.range r.subregs).map fun i => r.absolute_address + i⟩,
        (List.range r.subregs).foldl
          (fun res i => res ||| (b.mem (r.absolute_address + i) <<< (r.accesswidth * i))) 0) := by
  simp only [RegModel.read, hr, readChunksAux_loopback]

/-! ### Claim C2 — split equivalence -/

/-- C2, as stated, is false for values outside `[0, 2^regwidth)`: at
regwidth 8 and value 256, Python renders the 9-digit string `"100000000"`
and the slice for the field `[7:4]` parses to 8, while
`(256 >> 4) & 0xF = 0`. -/
theorem C2_counterexample :
    split_value_over_fields fullReg 256 ≠
      fullReg.fields.map (fun f =>
        (Field.absolute_address fullReg f, (256 >>> f.lsb) &&& ((1 <<< f.width) - 1))) := by
  decide

/-- C2 (amended): for every register with well-formed field geometry
(`lsb ≤ msb < regwidth`, `regwidth ≥ 1`) and every value in
`[0, 2^regwidth)`, `split_value_over_fields` yields exactly one pair per
field, in field declaration order, pairing the field's absolute address
with `(value >> lsb) & ((1 << width) - 1)`. -/
theorem C2_split_equivalence (r : Register) (v : Nat)
    (hw : 1 ≤ r.regwidth)
    (hwf : ∀ f ∈ r.fields, f.lsb ≤ f.msb ∧ f.msb < r.regwidth)
    (hv : v < 2 ^ r.regwidth) :
    split_value_over_fields r v =
      r.fields.map fun f =>
        (Field.absolute_address r f, (v >>> f.lsb) &&& ((1 <<< f.width) - 1)) := by
  rw [split_eq_map_sliceVal]
  apply List.map_congr_left
  intro f hf
  obtain ⟨h1, h2⟩ := hwf f hf
  rw [sliceVal_eq r v f hw h2 h1 hv, and_shiftLeft_one_sub_one]

/-- Witness for C2: the amended equivalence evaluated on a concrete
register and value. -/
theorem C2_split_equivalence_witness :
    split_value_over_fields fullReg 0xA7 =
      fullReg.fields.map fun f =>
        (Field.absolute_address fullReg f, (0xA7 >>> f.lsb) &&& ((1 <<< f.width) - 1)) :=
  C2_split_equivalence fullReg 0xA7 (by decide) (by decide) (by decide)

/-! ### Claim C1 — set/get round trip -/

/-- C1, as stated, is false for registers whose fields do not cover every
bit: `gapReg` implements only bits 3:0, so `set` followed by `get` drops
the upper bits of 16. -/
theorem C1_counterexample :
    ((RegModel.ofRegisters [gapReg]).set "g1" 16).bind (fun m2 => m2.get "g1") =
      .ok 0 ∧ (16 : Nat) < 2 ^ gapReg.regwidth ∧ (0 : Nat) ≠ 16 := by
  refine ⟨by decide, by decide, by decide⟩

/-- C1 (amended): the split-then-join round trip `get(R)` after
`set(R, v)` returns `v` for every `v` in `[0, 2^regwidth)` — provided the
register's fields jointly cover every bit position of the register (bits
belonging to no field are dropped by the split).  The mirror is assumed
keyed by exactly the register's fields, which `ofRegisters` establishes. -/
theorem C1_roundtrip (m : RegModel) (p : String) (r : Register) (dv : Mirror) (v : Nat)
    (hr : m.get_register_by_name p = .ok r)
    (hdv : List.lookup p m.desired_values = some dv)
    (hkeys : dv.map Prod.fst = r.fields.map Field.inst_name)
    (hw : 1 ≤ r.regwidth)
    (hwf : r.fieldsWF)
    (hcover : r.fieldsCover)
    (hv : v < 2 ^ r.regwidth) :
    (m.set p v).bind (fun m2 => m2.get p) = .ok v := by
  obtain ⟨hgeom, hnodup⟩ := hwf
  rw [set_then_get m p r dv v hr hdv hkeys hnodup]
  congr 1
  have hslice : ∀ f ∈ r.fields, sliceVal r v f = (v >>> f.lsb) % 2 ^ f.width := by
    intro f hf
    obtain ⟨h1, h2⟩ := hgeom f hf
    exact sliceVal_eq r v f hw h2 h1 hv
  rw [List.foldl_ext _ _ _ (fun acc f hf => by rw [hslice f hf])]
  exact foldl_or_field_slices r.regwidth v r.fields hgeom hcover hv

/-- Witness for C1: the amended round trip on a register whose two fields
tile all 8 bits, at value 0xA7. -/
theorem C1_roundtrip_witness :
    ((RegModel.ofRegisters [fullReg]).set "r1" 0xA7).bind
      (fun m2 => m2.get "r1") = .ok 0xA7 :=
  C1_roundtrip (RegModel.ofRegisters [fullReg]) "r1" fullReg
    [("lo", ⟨⟨"lo", 3, 0, some 5⟩, 5⟩), ("hi", ⟨⟨"hi", 7, 4, none⟩, 0⟩)] 0xA7
    (by decide) (by decide) (by decide) (by decide) (by decide) (by decide) (by decide)

/-! ### Claim C7 — reset semantics -/

/-- C7: after `reset(path)`, `get(path)` is the OR over the register's
fields of the declared reset value (0 when undeclared) shifted to the
field's lsb; and `reset_field(path, f)` sets only field `f`'s mirror entry
to its declared reset value or 0, leaving every other `(register, field)`
mirror entry unchanged. -/
theorem C7_reset (m : RegModel) (p : String) (r : Register) (dv : Mirror)
    (hr : m.get_register_by_name p = .ok r)
    (hdv : List.lookup p m.desired_values = some dv)
    (hkeys : dv.map Prod.fst = r.fields.map Field.inst_name)
    (hnodup : (r.fields.map Field.inst_name).Nodup) :
    (m.reset p).bind (fun m2 => m2.get p) =
        .ok (r.fields.foldl (fun acc f => acc ||| (f.reset.getD 0 <<< f.lsb)) 0) ∧
      ∀ fname w, List.lookup fname dv = some w →
        ∃ m2, m.reset_field p fname = .ok m2 ∧
          m2.get_field p fname = .ok (w.field.reset.getD 0) ∧
          ∀ q g, (q, g) ≠ (p, fname) → m2.get_field q g = m.get_field q g := by
  constructor
  · exact reset_then_get m p r dv hr hdv hkeys hnodup
  · intro fname w hw
    refine ⟨⟨m.reg_map,
      setAssoc m.desired_values p (Mirror.update dv fname (w.field.reset.getD 0))⟩, ?_, ?_, ?_⟩
    · simp only [RegModel.reset_field, hdv, hw]
    · have hpp : (List.lookup p m.desired_values).isSome := by rw [hdv]; rfl
      simp only [RegModel.get_field, lookup_setAssoc_self _ _ _ hpp,
        lookup_update_self dv fname _ w hw]
    · intro q g hne
      by_cases hq : q = p
      · subst hq
        have hg : g ≠ fname := fun hc => hne (by rw [hc])
        have hpp : (List.lookup q m.desired_values).isSome := by rw [hdv]; rfl
        simp only [RegModel.get_field, lookup_setAssoc_self _ _ _ hpp, hdv,
          lookup_update_ne dv fname g _ hg, keys_setAssoc]
      · simp only [RegModel.get_field, lookup_setAssoc_ne _ _ _ _ hq, keys_setAssoc]

/-- Witness for C7: reset of a register whose `lo` field declares reset 5
and whose `hi` field declares none, and a single-field reset. -/
theorem C7_reset_witness :
    ((RegModel.ofRegisters [fullReg]).reset "r1").bind
        (fun m2 => m2.get "r1") =
      .ok (fullReg.fields.foldl (fun acc f => acc ||| (f.reset.getD 0 <<< f.lsb)) 0) ∧
    ∃ m2, (RegModel.ofRegisters [fullReg]).reset_field "r1" "lo" = .ok m2 ∧
      m2.get_field "r1" "lo" = .ok ((5 : Nat)) ∧
      ∀ q g, (q, g) ≠ ("r1", "lo") →
        m2.get_field q g = (RegModel.ofRegisters [fullReg]).get_field q g := by
  have h := C7_reset (RegModel.ofRegisters [fullReg]) "r1" fullReg
    [("lo", ⟨⟨"lo", 3, 0, some 5⟩, 5⟩), ("hi", ⟨⟨"hi", 7, 4, none⟩, 0⟩)]
    (by decide) (by decide) (by decide) (by decide)
  exact ⟨h.1, h.2 "lo" ⟨⟨"lo", 3, 0, some 5⟩, 5⟩ (by decide)⟩

/-! ### Claim C8 — lookup failures -/

/-- C8: an unknown register path makes `get_register_by_name` raise an
error whose message lists the valid register keys; an unknown register
path or field name makes `set_field` and `get_field` raise an error whose
message lists the valid keys of the mirror (the register-path keys of
`_desired_values`).  No state is produced in any of these cases: the
failing operations return only the error, so the caller's mirror is
untouched. -/
theorem C8_lookup_failures :
    (∀ (m : RegModel) (p : String), List.lookup p m.reg_map = none →
        m.get_register_by_name p = .error (.withKeys (m.reg_map.map Prod.fst))) ∧
      (∀ (m : RegModel) (p fname : String) (v : Nat),
        (List.lookup p m.desired_values = none ∨
          ∃ dv, List.lookup p m.desired_values = some dv ∧ List.lookup fname dv = none) →
        m.set_field p fname v = .error (.withKeys (m.desired_values.map Prod.fst))) ∧
      ∀ (m : RegModel) (p fname : String),
        (List.lookup p m.desired_values = none ∨
          ∃ dv, List.lookup p m.desired_values = some dv ∧ List.lookup fname dv = none) →
        m.get_field p fname = .error (.withKeys (m.desired_values.map Prod.fst)) := by
  refine ⟨?_, ?_, ?_⟩
  · intro m p h
    simp only [RegModel.get_register_by_name, h]
  · intro m p fname v h
    rcases h with h | ⟨dv, h1, h2⟩
    · simp only [RegModel.set_field, h]
    · simp only [RegModel.set_field, h1, h2]
  · intro m p fname h
    rcases h with h | ⟨dv, h1, h2⟩
    · simp only [RegModel.get_field, h]
    · simp only [RegModel.get_field, h1, h2]

/-- Witness for C8: the three failure shapes on a one-register model. -/
theorem C8_lookup_failures_witness :
    (RegModel.ofRegisters [fullReg]).get_register_by_name "zzz" =
        .error (.withKeys ["r1"]) ∧
      (RegModel.ofRegisters [fullReg]).set_field "r1" "zzz" 7 =
        .error (.withKeys ["r1"]) ∧
      (RegModel.ofRegisters [fullReg]).get_field "zzz" "lo" =
        .error (.withKeys ["r1"]) := by
  refine ⟨C8_lookup_failures.1 _ _ (by decide), ?_, ?_⟩
  · have h := C8_lookup_failures.2.1 (RegModel.ofRegisters [fullReg]) "r1" "zzz" 7
      (Or.inr ⟨[("lo", ⟨⟨"lo", 3, 0, some 5⟩, 5⟩), ("hi", ⟨⟨"hi", 7, 4, none⟩, 0⟩)],
        by decide, by decide⟩)
    exact h
  · have h := C8_lookup_failures.2.2 (RegModel.ofRegisters [fullReg]) "zzz" "lo"
      (Or.inl (by decide))
    exact h

/-! ### Claim C9 — randomize range -/

/-- C9, as stated, is false for registers 64 bits wide or wider:
`np.random.randint(0, 1 << 64)` raises `ValueError` because the exclusive
upper bound does not fit numpy's default int64 dtype, so `randomize`
raises instead of succeeding. -/
theorem C9_counterexample :
    (RegModel.ofRegisters [reg64]).randomize "r64" 0 =
      .error (.valueError "high is out of bounds for int64") := by
  decide

/-- C9 (amended): for registers with `1 ≤ regwidth ≤ 63` (the range in
which `1 << regwidth` fits numpy's int64 bound), every outcome of the
random draw makes `randomize` succeed and leave the mirror value
`get(path)` in `[0, 2^regwidth)`; and `randomize_field` on a field of
width at most 63 draws `draw % 2^width`, a value in `[0, 2^width)`, and
routes it through `set_field`. -/
theorem C9_randomize (m : RegModel) (p : String) (r : Register) (dv : Mirror)
    (hr : m.get_register_by_name p = .ok r)
    (hdv : List.lookup p m.desired_values = some dv)
    (hkeys : dv.map Prod.fst = r.fields.map Field.inst_name)
    (hwf : r.fieldsWF)
    (hw1 : 1 ≤ r.regwidth) (hw63 : r.regwidth ≤ 63) :
    (∀ draw, ∃ g, ((m.randomize p draw).bind fun m2 => m2.get p) = .ok g ∧
        g < 2 ^ r.regwidth) ∧
      ∀ fname w draw, m.get_field_by_name p fname = .ok w → w.field.width ≤ 63 →
        m.randomize_field p fname draw = m.set_field p fname (draw % 2 ^ w.field.width) ∧
          draw % 2 ^ w.field.width < 2 ^ w.field.width := by
  obtain ⟨hgeom, hnodup⟩ := hwf
  have hshift : (1 : Nat) <<< r.regwidth = 2 ^ r.regwidth := by
    rw [Nat.shiftLeft_eq, one_mul]
  constructor
  · intro draw
    have hle : 2 ^ r.regwidth ≤ 2 ^ 63 := Nat.pow_le_pow_right (by omega) hw63
    have hpos : 0 < 2 ^ r.regwidth := Nat.two_pow_pos _
    have hnp : np_random_randint 0 (1 <<< r.regwidth) draw =
        .ok (draw % 2 ^ r.regwidth) := by
      unfold np_random_randint
      rw [hshift, if_pos hle, if_pos hpos]
      simp
    have hrand : m.randomize p draw = m.set p (draw % 2 ^ r.regwidth) := by
      simp only [RegModel.randomize, hr, hnp]
    rw [hrand, set_then_get m p r dv _ hr hdv hkeys hnodup]
    have hv : draw % 2 ^ r.regwidth < 2 ^ r.regwidth := Nat.mod_lt _ hpos
    refine ⟨_, rfl, ?_⟩
    have hslice : ∀ f ∈ r.fields,
        sliceVal r (draw % 2 ^ r.regwidth) f =
          ((draw % 2 ^ r.regwidth) >>> f.lsb) % 2 ^ f.width := by
      intro f hf
      obtain ⟨h1, h2⟩ := hgeom f hf
      exact sliceVal_eq r _ f hw1 h2 h1 hv
    rw [List.foldl_ext _ _ _ (fun acc f hf => by rw [hslice f hf])]
    exact foldl_or_fields_lt r.regwidth r.fields _ hgeom
      (fun f _ => Nat.mod_lt _ (Nat.two_pow_pos _))
  · intro fname w draw hwname hw63f
    have hshiftf : (1 : Nat) <<< w.field.width = 2 ^ w.field.width := by
      rw [Nat.shiftLeft_eq, one_mul]
    have hlef : 2 ^ w.field.width ≤ 2 ^ 63 := Nat.pow_le_pow_right (by omega) hw63f
    have hposf : 0 < 2 ^ w.field.width := Nat.two_pow_pos _
    have hnp : np_random_randint 0 (1 <<< w.field.width) draw =
        .ok (draw % 2 ^ w.field.width) := by
      unfold np_random_randint
      rw [hshiftf, if_pos hlef, if_pos hposf]
      simp
    constructor
    · simp only [RegModel.randomize_field, hwname, hnp]
    · exact Nat.mod_lt _ hposf

/-- Witness for C9: a randomize on an 8-bit register and a field randomize
on its 4-bit field. -/
theorem C9_randomize_witness :
    (∃ g, (((RegModel.ofRegisters [fullReg]).randomize "r1" 1000).bind
        fun m2 => m2.get "r1") = .ok g ∧ g < 2 ^ fullReg.regwidth) ∧
      (RegModel.ofRegisters [fullReg]).randomize_field "r1" "hi" 77 =
          (RegModel.ofRegisters [fullReg]).set_field "r1" "hi" (77 % 2 ^ 4) ∧
        77 % 2 ^ 4 < 2 ^ 4 := by
  have h := C9_randomize (RegModel.ofRegisters [fullReg]) "r1" fullReg
    [("lo", ⟨⟨"lo", 3, 0, some 5⟩, 5⟩), ("hi", ⟨⟨"hi", 7, 4, none⟩, 0⟩)]
    (by decide) (by decide) (by decide) (by decide) (by decide) (by decide)
  exact ⟨h.1 1000, h.2 "hi" ⟨⟨"hi", 7, 4, none⟩, 0⟩ 77 (by decide) (by decide)⟩

/-! ### Claim C10 — unmasked field mirror writes -/

/-- C10: `set_field` stores the given value verbatim, with no width
masking or range validation, and `get_field` returns exactly the stored
value — including values at or above `2^width`; a subsequent `get(path)`
ORs the stored value shifted by the field's lsb into the register value,
so `get(path)` can exceed `2^regwidth` and overlap other fields' bits. -/
theorem C10_set_field_verbatim (m : RegModel) (p fname : String) (v : Nat)
    (r : Register) (dv : Mirror) (w : FieldWrapper)
    (hr : m.get_register_by_name p = .ok r)
    (hdv : List.lookup p m.desired_values = some dv)
    (hkeys : dv.map Prod.fst = r.fields.map Field.inst_name)
    (hw : List.lookup fname dv = some w) :
    ∃ m2, m.set_field p fname v = .ok m2 ∧ m2.get_field p fname = .ok v ∧
      m2.get p = .ok (r.fields.foldl
        (fun acc f => acc |||
          ((if f.inst_name = fname then v else Mirror.getValue dv f.inst_name) <<< f.lsb)) 0) := by
  have hpp : (List.lookup p m.desired_values).isSome := by rw [hdv]; rfl
  refine ⟨⟨m.reg_map, setAssoc m.desired_values p (Mirror.update dv fname v)⟩, ?_, ?_, ?_⟩
  · simp only [RegModel.set_field, hdv, hw]
  · simp only [RegModel.get_field, lookup_setAssoc_self _ _ _ hpp,
      lookup_update_self dv fname v w hw]
  · have hr2 : (⟨m.reg_map,
        setAssoc m.desired_values p (Mirror.update dv fname v)⟩ :
        RegModel).get_register_by_name p = .ok r := hr
    have hlook : List.lookup p (setAssoc m.desired_values p (Mirror.update dv fname v)) =
        some (Mirror.update dv fname v) := lookup_setAssoc_self _ _ _ hpp
    have hkeys2 : (Mirror.update dv fname v).map Prod.fst = r.fields.map Field.inst_name := by
      rw [keys_update, hkeys]
    rw [get_eq_of_keys _ p r _ hr2 hlook hkeys2]
    congr 1
    apply getLoop_eq_foldl
    intro f hf
    by_cases hfn : f.inst_name = fname
    · rw [if_pos hfn, hfn, getValue_lookup _ _ _ (lookup_update_self dv fname v w hw)]
    · rw [if_neg hfn, Mirror.getValue, lookup_update_ne dv fname f.inst_name v hfn]
      rfl

/-- Witness for C10: storing the oversized value 256 in the 4-bit field of
an 8-bit register; the register mirror value becomes 256, which exceeds
`2^8`. -/
theorem C10_set_field_verbatim_witness :
    (∃ m2, (RegModel.ofRegisters [gapReg]).set_field "g1" "lo" 256 = .ok m2 ∧
        m2.get_field "g1" "lo" = .ok 256 ∧
        m2.get "g1" = .ok (gapReg.fields.foldl
          (fun acc f => acc |||
            ((if f.inst_name = "lo" then 256
              else Mirror.getValue [("lo", ⟨⟨"lo", 3, 0, none⟩, 0⟩)] f.inst_name) <<< f.lsb)) 0)) ∧
      gapReg.fields.foldl
          (fun acc f => acc |||
            ((if f.inst_name = "lo" then 256
              else Mirror.getValue [("lo", ⟨⟨"lo", 3, 0, none⟩, 0⟩)] f.inst_name) <<< f.lsb)) 0 =
        256 ∧
      2 ^ gapReg.regwidth ≤ 256 := by
  refine ⟨C10_set_field_verbatim (RegModel.ofRegisters [gapReg]) "g1" "lo" 256 gapReg
    [("lo", ⟨⟨"lo", 3, 0, none⟩, 0⟩)] ⟨⟨"lo", 3, 0, none⟩, 0⟩
    (by decide) (by decide) (by decide) (by decide), by decide, by decide⟩

/-! ### Claim C3 — chunked write -/

/-- C3: `write(path, data)` issues exactly `subregs` bus write
transactions, for `i` ascending from 0, where chunk `i` carries
`(write_value >> (accesswidth*i)) & ((1 << accesswidth) - 1)` and goes to
address `absolute_address + i`; when `data` is omitted, the value written
is the current mirror value `get(path)`. -/
theorem C3_chunked_write (m : RegModel) (p : String) (r : Register) (dv : Mirror)
    (data : Option Nat) (wd : Nat) (mem : Nat → Nat)
    (hr : m.get_register_by_name p = .ok r)
    (hdv : List.lookup p m.desired_values = some dv)
    (hkeys : dv.map Prod.fst = r.fields.map Field.inst_name)
    (hwd : (match data with | some d => .ok d | none => m.get p : Except PyErr Nat) = .ok wd) :
    ((m.write loopback (Bus.fresh mem) p data).2).map Bus.writes =
        .ok ((List.range r.subregs).map fun i =>
          (r.absolute_address + i,
            (wd >>> (r.accesswidth * i)) &&& ((1 <<< r.accesswidth) - 1))) ∧
      ((m.write loopback (Bus.fresh mem) p data).2).map (fun b => b.writes.length) =
        .ok r.subregs := by
  have hfold := foldExcept_loopback_write r wd (Bus.fresh mem) (List.range r.subregs)
  have hmain : (m.write loopback (Bus.fresh mem) p data).2 =
      .ok ⟨busAfterWrites mem ((List.range r.subregs).map (writeTxn r wd)),
        (List.range r.subregs).map (writeTxn r wd), []⟩ := by
    cases data with
    | none =>
      have hget : m.get p = .ok wd := hwd
      simp only [RegModel.write, hr, hget, hfold]
      simp [Bus.fresh]
    | some d =>
      have hd : d = wd := by
        simpa using hwd
      subst hd
      simp only [RegModel.write, hr, hfold, set_eq_of_keys m p r dv d hr hdv hkeys]
      simp [Bus.fresh]
  rw [hmain]
  constructor
  · rfl
  · simp [Except.map]

/-- Witness for C3: a wide register written with explicit data produces
its two chunks in ascending address order. -/
theorem C3_chunked_write_witness :
    (((RegModel.ofRegisters [wideReg]).write loopback (Bus.fresh fun _ => 0) "w1"
          (some 0xABCD1234)).2).map Bus.writes =
        .ok ((List.range wideReg.subregs).map fun i =>
          (wideReg.absolute_address + i,
            (0xABCD1234 >>> (wideReg.accesswidth * i)) &&&
              ((1 <<< wideReg.accesswidth) - 1))) ∧
      (((RegModel.ofRegisters [wideReg]).write loopback (Bus.fresh fun _ => 0) "w1"
          (some 0xABCD1234)).2).map (fun b => b.writes.length) = .ok wideReg.subregs :=
  C3_chunked_write (RegModel.ofRegisters [wideReg]) "w1" wideReg
    [("hi", ⟨⟨"hi", 31, 16, none⟩, 0⟩), ("lo", ⟨⟨"lo", 15, 0, some 3⟩, 3⟩)]
    (some 0xABCD1234) 0xABCD1234 (fun _ => 0)
    (by decide) (by decide) (by decide) (by decide)

/-! ### Claim C5 — write atomicity of the mirror -/

/-- C5: with explicit data, the mirror is updated (via `set`) only after
every chunk write callback has returned without error; if any chunk write
raises, the transport error propagates to the caller and the returned
mirror state is exactly the pre-write model; and a write with data omitted
never changes the mirror, whatever happens on the bus. -/
theorem C5_write_atomicity {σ ε : Type} (cb : CallbackSet σ ε) (s : σ)
    (m : RegModel) (p : String) (r : Register)
    (hr : m.get_register_by_name p = .ok r) :
    (∀ d e,
        foldExcept (fun s2 subreg => cb.async_write_callback s2
          (writeTxn r d subreg).1 (writeTxn r d subreg).2) s (List.range r.subregs) =
            .error e →
        m.write cb s p (some d) = (m, .error (.transport e))) ∧
      (∀ d s2 m2,
        foldExcept (fun s2 subreg => cb.async_write_callback s2
          (writeTxn r d subreg).1 (writeTxn r d subreg).2) s (List.range r.subregs) =
            .ok s2 →
        m.set p d = .ok m2 →
        m.write cb s p (some d) = (m2, .ok s2)) ∧
      (m.write cb s p none).1 = m := by
  refine ⟨?_, ?_, ?_⟩
  · intro d e hfold
    simp only [RegModel.write, hr, hfold]
  · intro d s2 m2 hfold hset
    simp only [RegModel.write, hr, hfold, hset]
  · simp only [RegModel.write, hr]
    cases hget : m.get p with
    | error e => simp
    | ok wd =>
      cases hfold : foldExcept (fun s2 subreg => cb.async_write_callback s2
          (writeTxn r wd subreg).1 (writeTxn r wd subreg).2) s (List.range r.subregs) with
      | error e => simp [hfold]
      | ok s2 => simp [hfold]

/-- Witness for C5: a transport that faults on the second chunk leaves the
mirror untouched and surfaces the fault; a mirror-value write leaves the
mirror untouched as well. -/
theorem C5_write_atomicity_witness :
    (RegModel.ofRegisters [wideReg]).write (failAt 1) () "w1" (some 5) =
        (RegModel.ofRegisters [wideReg], .error (.transport "bus fault")) ∧
      ((RegModel.ofRegisters [wideReg]).write (failAt 1) () "w1" none).1 =
        RegModel.ofRegisters [wideReg] := by
  have h := C5_write_atomicity (failAt 1) () (RegModel.ofRegisters [wideReg]) "w1" wideReg
    (by decide)
  exact ⟨h.1 5 "bus fault" (by decide), h.2.2⟩

/-! ### Claim C4 — wide-register loop-back round trip -/

/-- C4, as stated, is false about the transaction addresses: the chunk
loop steps the address by 1 per sub-register (`absolute_address + subreg`),
not by `addressincr = accesswidth/8`.  For a 32-bit register with 16-bit
access width the observed addresses are `[0, 1]`, while
`base, base + incr, ...` would be `[0, 2]`. -/
theorem C4_counterexample :
    (((RegModel.ofRegisters [wideReg]).write loopback (Bus.fresh fun _ => 0) "w1"
          (some 5)).2).map (fun b => b.writes.map Prod.fst) = .ok [0, 1] ∧
      (List.range wideReg.subregs).map
          (fun i => wideReg.absolute_address + i * wideReg.addressincr) = [0, 2] ∧
      ([0, 1] : List Nat) ≠ [0, 2] := by
  refine ⟨by decide, by decide, by decide⟩

/-- C4 (amended): for a wide register (`accesswidth < regwidth`, with
`accesswidth ∣ regwidth`, `subregs = k`) and any `v < 2^regwidth`,
`write(R, v)` against a loop-back bus is observed as exactly `k` write
transactions in ascending order at addresses `base, base+1, ...,
base+(k-1)` — one address unit per chunk, which equals `accesswidth/8`
bytes only when `accesswidth = 8` — and a subsequent `read(R)` from the
same loop-back store returns exactly `v`. -/
theorem C4_wide_loopback (m : RegModel) (p : String) (r : Register) (dv : Mirror)
    (v : Nat) (mem : Nat → Nat)
    (hr : m.get_register_by_name p = .ok r)
    (hdv : List.lookup p m.desired_values = some dv)
    (hkeys : dv.map Prod.fst = r.fields.map Field.inst_name)
    (hwide : r.accesswidth < r.regwidth)
    (haw : 1 ≤ r.accesswidth)
    (hdiv : r.accesswidth ∣ r.regwidth)
    (hv : v < 2 ^ r.regwidth) :
    ∃ m2 b, m.write loopback (Bus.fresh mem) p (some v) = (m2, .ok b) ∧
      b.writes.map Prod.fst = (List.range r.subregs).map (fun i => r.absolute_address + i) ∧
      b.writes.length = r.subregs ∧
      ∃ b2, m2.read loopback b p none = .ok (b2, v) := by
  have hfold := foldExcept_loopback_write r v (Bus.fresh mem) (List.range r.subregs)
  have hset := set_eq_of_keys m p r dv v hr hdv hkeys
  refine ⟨⟨m.reg_map, setAssoc m.desired_values p
      (Mirror.setRegValues dv r.fields ((split_value_over_fields r v).map Prod.snd))⟩,
    ⟨busAfterWrites mem ((List.range r.subregs).map (writeTxn r v)),
      (List.range r.subregs).map (writeTxn r v), []⟩, ?_, ?_, ?_, ?_⟩
  · simp only [RegModel.write, hr, hfold, hset]
    simp [Bus.fresh]
  · rw [List.map_map]
    rfl
  · simp
  · have hr2 : (⟨m.reg_map,
        setAssoc m.desired_values p
          (Mirror.setRegValues dv r.fields ((split_value_over_fields r v).map Prod.snd))⟩ :
        RegModel).get_register_by_name p = .ok r := hr
    refine ⟨⟨busAfterWrites mem ((List.range r.subregs).map (writeTxn r v)),
      (List.range r.subregs).map (writeTxn r v),
      [] ++ (List.range r.subregs).map fun i => r.absolute_address + i⟩, ?_⟩
    rw [read_register_loopback _ p r _ hr2,
      show (⟨busAfterWrites mem ((List.range r.subregs).map (writeTxn r v)),
        (List.range r.subregs).map (writeTxn r v), ([] : List Nat)⟩ : Bus).mem =
        busAfterWrites mem ((List.range r.subregs).map (writeTxn r v)) from rfl,
      show (⟨busAfterWrites mem ((List.range r.subregs).map (writeTxn r v)),
        (List.range r.subregs).map (writeTxn r v), ([] : List Nat)⟩ : Bus).writes =
        (List.range r.subregs).map (writeTxn r v) from rfl,
      show (⟨busAfterWrites mem ((List.range r.subregs).map (writeTxn r v)),
        (List.range r.subregs).map (writeTxn r v), ([] : List Nat)⟩ : Bus).reads =
        ([] : List Nat) from rfl]
    have hmem : ∀ i ∈ List.range r.subregs,
        busAfterWrites mem ((List.range r.subregs).map (writeTxn r v))
          (r.absolute_address + i) =
        (v >>> (r.accesswidth * i)) &&& ((1 <<< r.accesswidth) - 1) := by
      intro i hi
      rw [busAfterWrites_range r v mem r.subregs i (List.mem_range.mp hi)]
      rfl
    rw [List.foldl_ext
      (fun res i => res ||| (busAfterWrites mem ((List.range r.subregs).map (writeTxn r v))
        (r.absolute_address + i) <<< (r.accesswidth * i)))
      (fun res i => res |||
        (((v >>> (r.accesswidth * i)) &&& ((1 <<< r.accesswidth) - 1)) <<< (r.accesswidth * i)))
      0 (fun a i hi => by simp only [hmem i hi])]
    have hrw : r.accesswidth * r.subregs = r.regwidth := by
      rw [Register.subregs]
      exact Nat.mul_div_cancel' hdiv
    rw [foldl_or_chunks r.accesswidth r.subregs v haw (by rw [hrw]; exact hv)]

/-- Witness for C4: the amended loop-back round trip on a 32-bit register
with 16-bit access width, at value 0xABCD1234. -/
theorem C4_wide_loopback_witness :
    ∃ m2 b, (RegModel.ofRegisters [wideReg]).write loopback (Bus.fresh fun _ => 0) "w1"
        (some 0xABCD1234) = (m2, .ok b) ∧
      b.writes.map Prod.fst =
        (List.range wideReg.subregs).map (fun i => wideReg.absolute_address + i) ∧
      b.writes.length = wideReg.subregs ∧
      ∃ b2, m2.read loopback b "w1" none = .ok (b2, 0xABCD1234) :=
  C4_wide_loopback (RegModel.ofRegisters [wideReg]) "w1" wideReg
    [("hi", ⟨⟨"hi", 31, 16, none⟩, 0⟩), ("lo", ⟨⟨"lo", 15, 0, some 3⟩, 3⟩)]
    0xABCD1234 (fun _ => 0)
    (by decide) (by decide) (by decide) (by decide) (by decide) (by decide) (by decide)

/-! ### Claim C6 — field read and whole-register read -/

/-- C6, as stated, is false about the address of the single field read:
`read(path, f)` reads at `Field.absolute_address = base + msb/8` (when
wide), which is not the address at which the chunked register read
accesses f's chunk (`base + msb/accesswidth`) unless `accesswidth = 8`.
For the field `[31:16]` of a 32-bit/16-bit-access register, the field read
goes to address 3 while `read(path)` reads the chunk containing the field
at address 1. -/
theorem C6_counterexample :
    ((RegModel.ofRegisters [wideReg]).read loopback (Bus.fresh fun _ => 0) "w1"
          (some "hi")).map (fun pr => pr.1.reads) = .ok [3] ∧
      ((RegModel.ofRegisters [wideReg]).read loopback (Bus.fresh fun _ => 0) "w1"
          none).map (fun pr => pr.1.reads) = .ok [0, 1] ∧
      (3 : Nat) ∉ ([0, 1] : List Nat) := by
  refine ⟨by decide, by decide, by decide⟩

/-- C6 (amended): `read(path, f)` issues exactly one bus read, at the
field's absolute address `base + msb/8` when the register is wide (`base`
otherwise) — which coincides with the address of the chunk containing `f`
exactly when `accesswidth = 8` — and returns
`(read_value >> (lsb mod accesswidth)) & ((1 << width) - 1)`; and
`read(path)` with no field reads all `subregs` chunks in ascending address
order, ORing chunk `i` into the result shifted left by `accesswidth*i`. -/
theorem C6_read (m : RegModel) (p : String) (r : Register) (b : Bus)
    (hr : m.get_register_by_name p = .ok r) :
    (∀ fname w, m.get_field_by_name r.inst_name fname = .ok w →
        m.read loopback b p (some fname) =
          .ok (⟨b.mem, b.writes, b.reads ++ [Field.absolute_address r w.field]⟩,
            (b.mem (Field.absolute_address r w.field) >>> (w.field.lsb % r.accesswidth)) &&&
              ((1 <<< w.field.width) - 1))) ∧
      m.read loopback b p none =
        .ok (⟨b.mem, b.writes,
            b.reads ++ (List.range r.subregs).map fun i => r.absolute_address + i⟩,
          (List.range r.subregs).foldl
            (fun res i => res ||| (b.mem (r.absolute_address + i) <<< (r.accesswidth * i)))
            0) := by
  constructor
  · intro fname w hw
    simp only [RegModel.read, hr, hw, loopback]
  · exact read_register_loopback m p r b hr

/-- Witness for C6: a field read and a whole-register read of the wide
register against a loop-back bus holding address-dependent data. -/
theorem C6_read_witness :
    (RegModel.ofRegisters [wideReg]).read loopback (Bus.fresh fun a => a + 100) "w1"
        (some "hi") =
      .ok (⟨(Bus.fresh fun a => a + 100).mem, (Bus.fresh fun a => a + 100).writes,
          (Bus.fresh fun a => a + 100).reads ++
            [Field.absolute_address wideReg
              ((⟨⟨"hi", 31, 16, none⟩, 0⟩ : FieldWrapper)).field]⟩,
        ((Bus.fresh fun a => a + 100).mem
            (Field.absolute_address wideReg ((⟨⟨"hi", 31, 16, none⟩, 0⟩ : FieldWrapper)).field) >>>
          (((⟨⟨"hi", 31, 16, none⟩, 0⟩ : FieldWrapper)).field.lsb % wideReg.accesswidth)) &&&
          ((1 <<< ((⟨⟨"hi", 31, 16, none⟩, 0⟩ : FieldWrapper)).field.width) - 1)) ∧
      (RegModel.ofRegisters [wideReg]).read loopback (Bus.fresh fun a => a + 100) "w1" none =
        .ok (⟨(Bus.fresh fun a => a + 100).mem, (Bus.fresh fun a => a + 100).writes,
            (Bus.fresh fun a => a + 100).reads ++
              (List.range wideReg.subregs).map fun i => wideReg.absolute_address + i⟩,
          (List.range wideReg.subregs).foldl
            (fun res i => res |||
              ((Bus.fresh fun a => a + 100).mem (wideReg.absolute_address + i) <<<
                (wideReg.accesswidth * i))) 0) := by
  have h := C6_read (RegModel.ofRegisters [wideReg]) "w1" wideReg
    (Bus.fresh fun a => a + 100) (by decide)
  exact ⟨h.1 "hi" ⟨⟨"hi", 31, 16, none⟩, 0⟩ (by decide), h.2⟩

end PeakrdlSv
